import Mathlib

/-!
Shallow embedding of the conveyal/r5 utility scripts:
  src/census/downloadData.py  (bulk census data fetcher)
  src/census/randomizeCsv.py  (CSV anonymizer)
  src/src/main/resources/speeds/convert.py  (speed table converter)
The definitions below are translated directly from the Python source;
theorems about the spec claims follow at the end of the file.
-/

namespace Census

/-- Embedding of the fipsCodes dict of downloadData.py, lines 16 to 72,
as an association list in source (insertion) order: Python dicts preserve
insertion order, so dict.keys() iterates in this order. -/
def fipsCodes : List (String × String) :=
  [ ("AK", "02"), ("AL", "01"), ("AR", "05"), ("AS", "60"), ("AZ", "04"),
    ("CA", "06"), ("CO", "08"), ("CT", "09"), ("DC", "11"), ("DE", "10"),
    ("FL", "12"), ("GA", "13"), ("GU", "66"), ("HI", "15"), ("IA", "19"),
    ("ID", "16"), ("IL", "17"), ("IN", "18"), ("KS", "20"), ("KY", "21"),
    ("LA", "22"), ("MA", "25"), ("MD", "24"), ("ME", "23"), ("MI", "26"),
    ("MN", "27"), ("MO", "29"), ("MS", "28"), ("MT", "30"), ("NC", "37"),
    ("ND", "38"), ("NE", "31"), ("NH", "33"), ("NJ", "34"), ("NM", "35"),
    ("NV", "32"), ("NY", "36"), ("OH", "39"), ("OK", "40"), ("OR", "41"),
    ("PA", "42"), ("PR", "72"), ("RI", "44"), ("SC", "45"), ("SD", "46"),
    ("TN", "47"), ("TX", "48"), ("UT", "49"), ("VA", "51"), ("VI", "78"),
    ("VT", "50"), ("WA", "53"), ("WI", "55"), ("WV", "54"), ("WY", "56") ]

/-- The key set of fipsCodes, in iteration order (fipsCodes.keys()). -/
def fipsKeys : List String := fipsCodes.map Prod.fst

/-- Embedding of str.upper(): uppercase character by character (the region
arguments are plain ASCII abbreviations). -/
def upperStr (s : String) : String := String.mk (s.data.map Char.toUpper)

/-- Embedding of str.lower(), used when building the LODES URLs. -/
def lowerStr (s : String) : String := String.mk (s.data.map Char.toLower)

/-- Membership test "state in fipsCodes" and subscript "fipsCodes[state]"
are both modelled through association-list lookup. -/
def fipsLookup (state : String) : Option String := fipsCodes.lookup state

/-- Embedding of lines 76 to 81 of downloadData.py: the region arguments are
uppercased, and the single argument ALL expands to every key of the table. -/
def parseStates (args : List String) : List String :=
  let states := args.map upperStr
  if states.length = 1 ∧ states.head? = some "ALL" then fipsKeys else states

/-- Embedding of line 84 of downloadData.py: the sub-list of region codes not
present in the table, reported by the print on line 87. -/
def invalidStates (states : List String) : List String :=
  states.filter (fun s => (fipsLookup s).isNone)

/-- Embedding of the per-state loop of downloadData.py (lines 108 to 156) at
the granularity relevant to error handling: states are processed in order;
the subscript fipsCodes[state] on line 112 raises KeyError for a state absent
from the table, aborting the whole run. The result is the list of states
processed to completion, paired with the state (if any) whose lookup failed. -/
def runBatch : List String → List String × Option String
  | [] => ([], none)
  | s :: rest =>
    match fipsLookup s with
    | some _ =>
      let r := runBatch rest
      (s :: r.1, r.2)
    | none => ([], some s)

/-- Embedding of the retrieve function of downloadData.py (lines 95 to 104).
The environment is abstracted as a predicate telling whether the attempt with
index i (the loop variable of `for i in range(50)`) raises. The bare except
clause catches every exception, prints, sleeps 5 seconds and continues the
loop; on a non-raising attempt the else clause breaks out. The function
therefore always returns normally; the record below is the full observable
outcome: how many attempts ran, whether one succeeded, and the total time
slept (5 units after every failed attempt). -/
structure RetrieveResult where
  attempts : Nat
  succeeded : Bool
  sleepTime : Nat
deriving DecidableEq

/-- The retry loop, recursing on the number of loop iterations remaining,
with i the current attempt index. -/
def retrieveAux (fails : Nat → Bool) : Nat → Nat → RetrieveResult
  | _, 0 => ⟨0, false, 0⟩
  | i, n + 1 =>
    if fails i then
      let r := retrieveAux fails (i + 1) n
      ⟨r.attempts + 1, r.succeeded, r.sleepTime + 5⟩
    else
      ⟨1, true, 0⟩

/-- retrieve runs the loop `for i in range(50)`. -/
def retrieve (fails : Nat → Bool) : RetrieveResult :=
  retrieveAux fails 0 50

/-- Embedding of os.path.split(p)[-1]: the part of the path after the last
slash. -/
def basename (s : String) : String :=
  String.mk ((s.data.reverse.takeWhile (fun c => c ≠ '/')).reverse)

/-- A member of a zip archive: its stored (possibly nested) filename and its
contents. -/
structure ZipMember where
  filename : String
  content : String
deriving DecidableEq

/-- A filesystem side effect of the extraction step. -/
inductive FsOp where
  | write (path : List String) (content : String)
  | remove (path : List String)
deriving DecidableEq

/-- Embedding of the extraction loop of downloadData.py (lines 118 to 127):
each member is written to os.path.join(outDir, tiger, basename) — paths are
modelled as component lists — and afterwards the archive itself is removed
(os.remove(zipout), line 127). -/
def extractAndClean (outDir state : String) (members : List ZipMember) :
    List FsOp :=
  (members.map fun m =>
    FsOp.write [outDir, "tiger", basename m.filename] m.content)
  ++ [FsOp.remove [outDir, "tiger", state ++ ".zip"]]

/-- Embedding of os.makedirs(p): raises FileExistsError when the target
directory already exists (no exist_ok flag is passed in the source), else
creates it. The filesystem is a list of existing directory paths. -/
def makedirs (fs : List (List String)) (p : List String) :
    Option (List (List String)) :=
  if p ∈ fs then none else some (fs ++ [p])

/-- Embedding of lines 90 to 92 of downloadData.py: the three makedirs calls
in source order; the first failure aborts (an uncaught FileExistsError). -/
def mkOutputDirs (outDir : String) (fs : List (List String)) :
    Option (List (List String)) :=
  (makedirs fs [outDir, "tiger"]).bind fun fs1 =>
  (makedirs fs1 [outDir, "jobs"]).bind fun fs2 =>
  makedirs fs2 [outDir, "workforce"]

/-- Embedding of the LODES year selection, lines 136 to 143 of
downloadData.py: default 2017; AK and SD use 2016; PR and VI get year 0
(Python falsy), which line 145 then uses to skip the downloads. -/
def lodesYear (state : String) : Nat :=
  if state = "AK" ∨ state = "SD" then 2016
  else if state = "PR" ∨ state = "VI" then 0
  else 2017

/-- An observable action of the LODES section of the per-state loop. -/
inductive LodesAction where
  | logNoData (state : String)
  | download (url : String) (dest : List String)
deriving DecidableEq

/-- URL of the rac file, line 150 of downloadData.py. -/
def racUrl (state : String) (year : Nat) : String :=
  "http://lehd.ces.census.gov/data/lodes/LODES7/" ++ lowerStr state ++
    "/rac/" ++ lowerStr state ++ "_rac_S000_JT00_" ++ toString year ++ ".csv.gz"

/-- URL of the wac file, line 154 of downloadData.py. -/
def wacUrl (state : String) (year : Nat) : String :=
  "http://lehd.ces.census.gov/data/lodes/LODES7/" ++ lowerStr state ++
    "/wac/" ++ lowerStr state ++ "_wac_S000_JT00_" ++ toString year ++ ".csv.gz"

/-- Embedding of lines 141 to 154 of downloadData.py: for PR and VI only the
no-data message is printed (year becomes 0 and the `if year` guard skips the
downloads); for every other state the rac and wac files are retrieved. -/
def lodesActions (outDir state : String) : List LodesAction :=
  let year := lodesYear state
  if year ≠ 0 then
    [ LodesAction.download (racUrl state year)
        [outDir, "workforce", state ++ "_" ++ toString year ++ "_rac.csv.gz"],
      LodesAction.download (wacUrl state year)
        [outDir, "jobs", state ++ "_" ++ toString year ++ "_wac.csv.gz"] ]
  else
    [LodesAction.logNoData state]

/-- The downloads among a list of LODES actions. -/
def lodesDownloads (acts : List LodesAction) : List LodesAction :=
  acts.filter fun a => match a with
    | LodesAction.download _ _ => true
    | _ => false

/-- The per-state TIGER archive URL, line 114 of downloadData.py. -/
def tigerUrl (fips : String) : String :=
  "ftp://ftp2.census.gov/geo/tiger/TIGER2010/TABBLOCK/2010/tl_2010_" ++
    fips ++ "_tabblock10.zip"

/-- The network requests the run would make for a given argument list:
for each state processed (in order, stopping at the first failing lookup,
as in runBatch) the TIGER url and then the LODES urls. -/
def networkOps (args : List String) : List String :=
  (runBatch (parseStates args)).1.flatMap fun s =>
    (match fipsLookup s with
     | some fips => [tigerUrl fips]
     | none => [])
    ++ (lodesDownloads (lodesActions "" s)).filterMap fun a => match a with
        | LodesAction.download url _ => some url
        | _ => none

/-- Embedding of the top-to-bottom control flow of downloadData.py relevant
to directory creation: the three makedirs calls run before the download loop,
so a FileExistsError aborts the script before any network request. The result
pairs the filesystem outcome with the network requests made. -/
def fetchRun (outDir : String) (args : List String)
    (fs : List (List String)) :
    Option (List (List String)) × List String :=
  match mkOutputDirs outDir fs with
  | none => (none, [])
  | some fs2 => (some fs2, networkOps args)

/-- Embedding of the nextVal function of randomizeCsv.py (lines 9 to 13):
the global counter ct is threaded explicitly; each call increments it and
returns the new value. -/
def nextVal (ct : Nat) : Nat × Nat := (ct + 1, ct + 1)

/-- The sequence of values produced by n successive calls to nextVal starting
from counter state ct. -/
def nextVals : Nat → Nat → List Nat
  | 0, _ => []
  | n + 1, ct =>
    let r := nextVal ct
    r.2 :: nextVals n r.1

/-- A cell value after the row transformation: either the original string or
a substituted integer. -/
inductive CellVal where
  | orig (v : String)
  | subbed (n : Nat)
deriving DecidableEq

/-- Embedding of the dict comprehension on line 23 of randomizeCsv.py for one
row: the value of every key starting with C is replaced by nextVal(), other
values are kept; the counter is threaded through in iteration order. -/
def transformRow : Nat → List (String × String) → Nat × List (String × CellVal)
  | ct, [] => (ct, [])
  | ct, (k, v) :: rest =>
    if k.startsWith "C" then
      let r := nextVal ct
      let t := transformRow r.1 rest
      (t.1, (k, CellVal.subbed r.2) :: t.2)
    else
      let t := transformRow ct rest
      (t.1, (k, CellVal.orig v) :: t.2)

/-- Embedding of the row loop of randomizeCsv.py (lines 22 to 23): the rows
are transformed in order, the counter persisting across rows (it is a module
level global). -/
def transformRows : Nat → List (List (String × String)) →
    Nat × List (List (String × CellVal))
  | ct, [] => (ct, [])
  | ct, row :: rest =>
    let t := transformRow ct row
    let u := transformRows t.1 rest
    (u.1, t.2 :: u.2)

/-- The substituted integers appearing in one transformed row, in order. -/
def rowSubbed (row : List (String × CellVal)) : List Nat :=
  row.filterMap fun p => match p.2 with
    | CellVal.subbed n => some n
    | _ => none

/-- The substituted integers appearing across all transformed rows. -/
def allSubbed (rows : List (List (String × CellVal))) : List Nat :=
  rows.flatMap rowSubbed

/-- The number of cells of one row whose key starts with C, hence the number
of nextVal calls the row costs. -/
def countC (row : List (String × String)) : Nat :=
  (row.filter fun p => p.1.startsWith "C").length

/-- The total number of nextVal calls over all rows of a run. -/
def countCAll (rows : List (List (String × String))) : Nat :=
  (rows.map countC).sum

end Census

namespace Speeds

/-- A row of speeds.csv as read by convert.py, keeping the two fields the
script uses. -/
structure SpeedRow where
  value : String
  numericEquivalent : String
deriving DecidableEq

/-- The unit alternation of the maxspeed regex of convert.py, line 6. -/
def speedUnits : List String := ["kmh", "km/h", "kmph", "kph", "mph", "knots"]

/-- Whether a character list matches the numeric group of the regex: one
digit followed by one or more characters that are each a dot or a digit. -/
def numPartOk : List Char → Bool
  | [] => false
  | c :: rest =>
    c.isDigit && !rest.isEmpty && rest.all fun x => x = '.' || x.isDigit

/-- Whether a character list matches the optional tail of the regex: empty,
or an optional single space followed by one of the unit words. -/
def unitPartOk (cs : List Char) : Bool :=
  cs.isEmpty || speedUnits.contains (String.mk cs) ||
    (cs.head? = some ' ' && speedUnits.contains (String.mk cs.tail))

/-- Embedding of regex.match on the anchored pattern of convert.py, line 6:
the whole string must split into a numeric part followed by the optional
unit tail (re.match anchors at the start and the final dollar anchors the
end; existence of any split point is what matters, so greediness is
irrelevant). -/
def maxspeedMatch (s : String) : Bool :=
  (List.range (s.data.length + 1)).any fun k =>
    numPartOk (s.data.take k) && unitPartOk (s.data.drop k)

/-- Embedding of Python dict assignment output[k] = v on an association
list: replace in place if the key is present, else append. -/
def dictInsert (d : List (String × String)) (k v : String) :
    List (String × String) :=
  if d.any (fun p => p.1 = k) then
    d.map fun p => if p.1 = k then (k, v) else p
  else d ++ [(k, v)]

/-- One iteration of the conversion loop of convert.py (lines 10 to 12). -/
def convertStep (d : List (String × String)) (row : SpeedRow) :
    List (String × String) :=
  if maxspeedMatch row.numericEquivalent then
    dictInsert d (Census.lowerStr row.value) row.numericEquivalent
  else d

/-- Embedding of the whole conversion loop of convert.py: fold over the CSV
rows in file order starting from the empty dict. -/
def convertSpeeds (rows : List SpeedRow) : List (String × String) :=
  rows.foldl convertStep []

/-- Observation function on the produced dict: Python dict access
output[k], as recursive association-list lookup. -/
def dictGet (d : List (String × String)) (k : String) : Option String :=
  match d with
  | [] => none
  | p :: rest => if p.1 = k then some p.2 else dictGet rest k

end Speeds

namespace Census

/-! Helper lemmas -/

/-- runBatch processes exactly the longest prefix of states whose lookup
succeeds, and aborts at the head of the rest. -/
theorem runBatch_characterization (states : List String) :
    runBatch states =
      (states.takeWhile (fun s => (fipsLookup s).isSome),
       (states.dropWhile (fun s => (fipsLookup s).isSome)).head?) := by
  induction states with
  | nil => rfl
  | cons s rest ih =>
    rw [List.takeWhile_cons, List.dropWhile_cons]
    cases h : fipsLookup s with
    | some v =>
      unfold runBatch
      rw [h]
      simp only [Option.isSome_some, if_true, ih]
    | none =>
      unfold runBatch
      rw [h]
      simp only [Option.isSome_none, Bool.false_eq_true, if_false,
        List.head?_cons]

theorem head_dropWhile_not_isSome (states : List String)
    (h : states.dropWhile (fun s => (fipsLookup s).isSome) ≠ []) :
    ∃ s, (states.dropWhile (fun s => (fipsLookup s).isSome)).head? = some s ∧
      (fipsLookup s).isNone := by
  induction states with
  | nil => simp at h
  | cons x rest ih =>
    by_cases hx : (fipsLookup x).isSome
    · rw [List.dropWhile_cons, if_pos hx] at h ⊢
      exact ih h
    · rw [List.dropWhile_cons, if_neg hx]
      exact ⟨x, rfl,
        Option.isNone_iff_eq_none.mpr (Option.not_isSome_iff_eq_none.mp hx)⟩

/-! Theorems about the claims -/

/-- C1 counterexample: the batch XX CA contains the unrecognized code XX and
the recognized code CA; the unrecognized code is reported, yet CA is never
processed, because the per-state loop aborts with a lookup error at XX. -/
theorem c1_counterexample :
    invalidStates (parseStates ["XX", "CA"]) = ["XX"] ∧
    (fipsLookup "CA").isSome = true ∧
    "CA" ∉ (runBatch (parseStates ["XX", "CA"])).1 ∧
    (runBatch (parseStates ["XX", "CA"])).2 = some "XX" := by
  refine ⟨rfl, rfl, ?_, rfl⟩
  decide

/-- C1 amended: for every batch containing at least one unrecognized and at
least one recognized code, the unrecognized codes are reported (the reported
list is nonempty), but processing continues only through the recognized codes
preceding the first unrecognized one: the run processes exactly the longest
prefix of recognized codes and then aborts with a lookup error at an
unrecognized code. -/
theorem c1_aborts_at_first_invalid (states : List String)
    (h1 : ∃ s ∈ states, (fipsLookup s).isNone)
    (_h2 : ∃ s ∈ states, (fipsLookup s).isSome) :
    invalidStates states ≠ [] ∧
    runBatch states =
      (states.takeWhile (fun s => (fipsLookup s).isSome),
       (states.dropWhile (fun s => (fipsLookup s).isSome)).head?) ∧
    ∃ s, (runBatch states).2 = some s ∧ (fipsLookup s).isNone := by
  obtain ⟨b, hb, hbn⟩ := h1
  refine ⟨?_, runBatch_characterization states, ?_⟩
  · intro hnil
    have := List.filter_eq_nil_iff.mp hnil b hb
    simp [hbn] at this
  · have hdrop : states.dropWhile (fun s => (fipsLookup s).isSome) ≠ [] := by
      intro hnil
      have := List.dropWhile_eq_nil_iff.mp hnil b hb
      simp [Option.isNone_iff_eq_none.mp hbn] at this
    obtain ⟨s, hs, hsn⟩ := head_dropWhile_not_isSome states hdrop
    refine ⟨s, ?_, hsn⟩
    rw [runBatch_characterization states]
    exact hs

/-- C1 witness: in the batch CA XX NY, only CA (which precedes the
unrecognized XX) is processed, and the run aborts at XX. -/
theorem c1_witness :
    runBatch ["CA", "XX", "NY"] = (["CA"], some "XX") := by
  have h := c1_aborts_at_first_invalid ["CA", "XX", "NY"]
    ⟨"XX", by decide, by decide⟩ ⟨"CA", by decide, by decide⟩
  rw [h.2.1]
  decide

/-- C3 counterexample: the static region table has 55 keys, not 56. -/
theorem c3_counterexample :
    ¬ ((parseStates ["ALL"]).length = 56) := by
  decide

/-- C3 amended: with the ALL sentinel, the set of regions processed equals
exactly the key set of the static region table, which has 55 entries, each
processed exactly once (the key list has no duplicates and the batch runs
through every key without aborting). -/
theorem c3_all_regions :
    (runBatch (parseStates ["ALL"])).1 = fipsKeys ∧
    (runBatch (parseStates ["ALL"])).2 = none ∧
    fipsKeys.length = 55 ∧ fipsKeys.Nodup := by
  refine ⟨by decide, by decide, by decide, by decide⟩

/-- C7: every numeric code in the static table is a two-character string of
digits, and in particular CA maps to 06 and NY maps to 36. -/
theorem c7_fips_codes :
    (fipsCodes.all fun p => p.2.length = 2 && p.2.data.all Char.isDigit) = true ∧
    fipsLookup "CA" = some "06" ∧
    fipsLookup "NY" = some "36" := by
  refine ⟨by decide, rfl, rfl⟩

/-- C9: the ALL sentinel is recognized case-insensitively (arguments are
uppercased before the comparison) but only as the sole region argument; in a
list of two or more arguments no expansion happens and ALL, not being a key
of the table, lands in the reported unrecognized list. -/
theorem c9_sentinel :
    (∀ s : String, upperStr s = "ALL" → parseStates [s] = fipsKeys) ∧
    (∀ args : List String, 2 ≤ args.length →
      parseStates args = args.map upperStr ∧
      ("ALL" ∈ args.map upperStr →
        "ALL" ∈ invalidStates (parseStates args))) := by
  constructor
  · intro s hs
    simp [parseStates, hs]
  · intro args hlen
    have hne : ¬ ((args.map upperStr).length = 1 ∧
        (args.map upperStr).head? = some "ALL") := by
      rintro ⟨h1, -⟩
      rw [List.length_map] at h1
      omega
    constructor
    · simp only [parseStates, if_neg hne]
    · intro hmem
      simp only [parseStates, if_neg hne]
      unfold invalidStates
      rw [List.mem_filter]
      exact ⟨hmem, by decide⟩

/-- C9 witness: the lowercase sentinel alone expands to all keys, while in
the two-argument batch ALL CA no expansion happens and ALL is reported as
unrecognized. -/
theorem c9_witness :
    parseStates ["all"] = fipsKeys ∧
    parseStates ["ALL", "CA"] = ["ALL", "CA"] ∧
    "ALL" ∈ invalidStates (parseStates ["ALL", "CA"]) := by
  have h1 := c9_sentinel.1 "all" (by decide)
  have h2 := c9_sentinel.2 ["ALL", "CA"] (by decide)
  refine ⟨h1, ?_, h2.2 (by decide)⟩
  rw [h2.1]
  decide

end Census

namespace Census

theorem retrieveAux_attempts_le (fails : Nat → Bool) :
    ∀ n i, (retrieveAux fails i n).attempts ≤ n := by
  intro n
  induction n with
  | zero => intro i; exact Nat.le_refl 0
  | succ n ih =>
    intro i
    unfold retrieveAux
    by_cases h : fails i
    · rw [if_pos h]
      exact Nat.succ_le_succ (ih (i + 1))
    · rw [if_neg h]
      exact Nat.succ_le_succ (Nat.zero_le n)

theorem retrieveAux_all_fail (fails : Nat → Bool) :
    ∀ n i, (∀ j, j < n → fails (i + j) = true) →
      retrieveAux fails i n = ⟨n, false, 5 * n⟩ := by
  intro n
  induction n with
  | zero => intro i _; rfl
  | succ n ih =>
    intro i h
    have h0 : fails i = true := by simpa using h 0 (Nat.succ_pos n)
    have hrest : ∀ j, j < n → fails (i + 1 + j) = true := by
      intro j hj
      have := h (j + 1) (by omega)
      rw [show i + 1 + j = i + (j + 1) by omega]
      exact this
    unfold retrieveAux
    rw [if_pos h0, ih (i + 1) hrest]
    simp [Nat.mul_succ]

theorem retrieveAux_first_success (fails : Nat → Bool) :
    ∀ k n i, (∀ j, j < k → fails (i + j) = true) → fails (i + k) = false →
      k < n → retrieveAux fails i n = ⟨k + 1, true, 5 * k⟩ := by
  intro k
  induction k with
  | zero =>
    intro n i _ hk hn
    cases n with
    | zero => omega
    | succ m =>
      have hk0 : fails i = false := by simpa using hk
      unfold retrieveAux
      rw [if_neg (by simp [hk0])]
  | succ k ih =>
    intro n i h hk hn
    cases n with
    | zero => omega
    | succ m =>
      have h0 : fails i = true := by simpa using h 0 (Nat.succ_pos k)
      have hrest : ∀ j, j < k → fails (i + 1 + j) = true := by
        intro j hj
        have := h (j + 1) (by omega)
        rw [show i + 1 + j = i + (j + 1) by omega]
        exact this
      have hk1 : fails (i + 1 + k) = false := by
        rw [show i + 1 + k = i + (k + 1) by omega]
        exact hk
      unfold retrieveAux
      rw [if_pos h0, ih m (i + 1) hrest hk1 (by omega)]
      simp [Nat.mul_succ]

/-- C2: the resilient retrieval makes at most 50 attempts; if the first N
attempts fail (N below 50) and attempt N succeeds, exactly N plus 1 attempts
run, success is recorded, and 5 time-units were slept after each of the N
failures; if all 50 attempts fail the loop completes with 50 attempts and no
success — retrieve is a total function returning a plain record, so no
exception escapes it in any case. -/
theorem c2_retry_policy (fails : Nat → Bool) (N : Nat) :
    (retrieve fails).attempts ≤ 50 ∧
    ((∀ j, j < N → fails j = true) → fails N = false → N < 50 →
      retrieve fails = ⟨N + 1, true, 5 * N⟩) ∧
    ((∀ j, j < 50 → fails j = true) →
      retrieve fails = ⟨50, false, 5 * 50⟩) := by
  refine ⟨retrieveAux_attempts_le fails 50 0, ?_, ?_⟩
  · intro h hN hlt
    have := retrieveAux_first_success fails N 50 0 (by simpa using h)
      (by simpa using hN) hlt
    simpa [retrieve] using this
  · intro h
    have := retrieveAux_all_fail fails 50 0 (by simpa using h)
    simpa [retrieve] using this

/-- C2 witness: a transfer failing on attempts 0 and 1 and succeeding on
attempt 2 makes exactly 3 attempts and sleeps 10 units; a transfer that
always fails makes 50 attempts, sleeps 250 units and reports no success. -/
theorem c2_witness :
    retrieve (fun i => decide (i < 2)) = ⟨3, true, 10⟩ ∧
    retrieve (fun _ => true) = ⟨50, false, 250⟩ := by
  constructor
  · have h := (c2_retry_policy (fun i => decide (i < 2)) 2).2.1
      (fun j hj => by simp [hj]) (by simp) (by omega)
    simpa using h
  · have h := (c2_retry_policy (fun _ => true) 0).2.2 (fun j hj => rfl)
    simpa using h

end Census

namespace Census

theorem basename_no_slash (s : String) : '/' ∉ (basename s).data := by
  intro hmem
  have h1 : '/' ∈ s.data.reverse.takeWhile (fun c => c ≠ '/') :=
    List.mem_reverse.mp hmem
  have h2 := List.mem_takeWhile_imp h1
  simp at h2

/-- C4: during extraction every member of the archive is written into the
tiger directory under only its base filename (the nested internal path is
discarded), every write of the step lands directly in the tiger directory
with no nested subdirectory (no slash in the final component), and the last
operation of the step removes the original archive. -/
theorem c4_extraction_flattens (outDir state : String)
    (members : List ZipMember) :
    (∀ m, m ∈ members →
      FsOp.write [outDir, "tiger", basename m.filename] m.content
        ∈ extractAndClean outDir state members) ∧
    (∀ p c, FsOp.write p c ∈ extractAndClean outDir state members →
      ∃ b, p = [outDir, "tiger", b] ∧ '/' ∉ b.data) ∧
    (extractAndClean outDir state members).getLast? =
      some (FsOp.remove [outDir, "tiger", state ++ ".zip"]) := by
  refine ⟨?_, ?_, ?_⟩
  · intro m hm
    unfold extractAndClean
    exact List.mem_append_left _ (List.mem_map_of_mem _ hm)
  · intro p c hp
    unfold extractAndClean at hp
    rcases List.mem_append.mp hp with h | h
    · obtain ⟨m, hm, heq⟩ := List.mem_map.mp h
      injection heq with hpath hcontent
      exact ⟨basename m.filename, hpath.symm, basename_no_slash m.filename⟩
    · simp at h
  · unfold extractAndClean
    exact List.getLast?_concat _

/-- C4 witness: a single member with the nested path folder/a.shp is written
flat as a.shp under tiger, and the archive CA.zip is removed last. -/
theorem c4_witness :
    FsOp.write ["out", "tiger", "a.shp"] "x"
      ∈ extractAndClean "out" "CA" [⟨"folder/a.shp", "x"⟩] ∧
    (extractAndClean "out" "CA" [⟨"folder/a.shp", "x"⟩]).getLast? =
      some (FsOp.remove ["out", "tiger", "CA.zip"]) := by
  have h := c4_extraction_flattens "out" "CA" [⟨"folder/a.shp", "x"⟩]
  refine ⟨?_, h.2.2⟩
  have hm := h.1 ⟨"folder/a.shp", "x"⟩ (by simp)
  simpa using hm

end Census

namespace Census

theorem mkOutputDirs_fresh (outDir : String) (fs : List (List String))
    (h1 : [outDir, "tiger"] ∉ fs) (h2 : [outDir, "jobs"] ∉ fs)
    (h3 : [outDir, "workforce"] ∉ fs) :
    mkOutputDirs outDir fs =
      some (fs ++ [[outDir, "tiger"], [outDir, "jobs"], [outDir, "workforce"]]) := by
  have e1 : [outDir, "jobs"] ∉ fs ++ [[outDir, "tiger"]] := by
    intro hmem
    rcases List.mem_append.mp hmem with h | h
    · exact h2 h
    · simp at h
  have e2 : [outDir, "workforce"] ∉
      (fs ++ [[outDir, "tiger"]]) ++ [[outDir, "jobs"]] := by
    intro hmem
    rcases List.mem_append.mp hmem with h | h
    · rcases List.mem_append.mp h with h | h
      · exact h3 h
      · simp at h
    · simp at h
  unfold mkOutputDirs makedirs
  rw [if_neg h1, Option.some_bind, if_neg e1, Option.some_bind, if_neg e2]
  simp

/-- C5: on a fresh output path the fetch creates exactly the three
subdirectories tiger, jobs and workforce before any network request, and a
second run on the resulting filesystem fails (FileExistsError from the first
makedirs call) before any network activity: its request list is empty. -/
theorem c5_directory_layout (outDir : String) (args : List String)
    (fs : List (List String))
    (h1 : [outDir, "tiger"] ∉ fs) (h2 : [outDir, "jobs"] ∉ fs)
    (h3 : [outDir, "workforce"] ∉ fs) :
    fetchRun outDir args fs =
      (some (fs ++ [[outDir, "tiger"], [outDir, "jobs"], [outDir, "workforce"]]),
        networkOps args) ∧
    fetchRun outDir args
      (fs ++ [[outDir, "tiger"], [outDir, "jobs"], [outDir, "workforce"]]) =
      (none, []) := by
  constructor
  · unfold fetchRun
    rw [mkOutputDirs_fresh outDir fs h1 h2 h3]
  · have hin : [outDir, "tiger"] ∈
        fs ++ [[outDir, "tiger"], [outDir, "jobs"], [outDir, "workforce"]] :=
      List.mem_append_right _ (by simp)
    unfold fetchRun mkOutputDirs makedirs
    rw [if_pos hin]
    rfl

/-- C5 witness: starting from an empty filesystem with output root out, the
first run creates the three directories and proceeds to the network; the
second run fails with no network activity. -/
theorem c5_witness :
    fetchRun "out" ["CA"] [] =
      (some [["out", "tiger"], ["out", "jobs"], ["out", "workforce"]],
        networkOps ["CA"]) ∧
    fetchRun "out" ["CA"]
      [["out", "tiger"], ["out", "jobs"], ["out", "workforce"]] = (none, []) := by
  have h := c5_directory_layout "out" ["CA"] [] (by simp) (by simp) (by simp)
  simpa using h

end Census

namespace Census

/-- C6: a state with no workforce-year exception gets the default vintage
2017; exactly the two exception states AK and SD get the prior year 2016;
exactly the two no-data states PR and VI trigger no workforce or jobs
download at all, their LODES step being only the log message. -/
theorem c6_vintage_selection (outDir state : String) :
    (state ≠ "AK" → state ≠ "SD" → state ≠ "PR" → state ≠ "VI" →
      lodesYear state = 2017) ∧
    (lodesYear state = 2016 ↔ state = "AK" ∨ state = "SD") ∧
    (lodesDownloads (lodesActions outDir state) = [] ↔
      state = "PR" ∨ state = "VI") ∧
    ((state = "PR" ∨ state = "VI") →
      lodesActions outDir state = [LodesAction.logNoData state]) := by
  by_cases hAS : state = "AK" ∨ state = "SD"
  · have hy : lodesYear state = 2016 := by
      unfold lodesYear
      rw [if_pos hAS]
    have hnp : ¬(state = "PR" ∨ state = "VI") := by
      rcases hAS with h | h <;> subst h <;> simp
    refine ⟨?_, ?_, ?_, ?_⟩
    · intro h1 h2 _ _
      rcases hAS with h | h
      · exact absurd h h1
      · exact absurd h h2
    · exact ⟨fun _ => hAS, fun _ => hy⟩
    · constructor
      · intro hd
        exfalso
        unfold lodesActions at hd
        rw [hy] at hd
        simp [lodesDownloads] at hd
      · intro hp
        exact absurd hp hnp
    · intro hp
      exact absurd hp hnp
  · by_cases hPV : state = "PR" ∨ state = "VI"
    · have hy : lodesYear state = 0 := by
        unfold lodesYear
        rw [if_neg hAS, if_pos hPV]
      have hact : lodesActions outDir state = [LodesAction.logNoData state] := by
        unfold lodesActions
        rw [hy]
        simp
      refine ⟨?_, ?_, ?_, fun _ => hact⟩
      · intro _ _ h3 h4
        rcases hPV with h | h
        · exact absurd h h3
        · exact absurd h h4
      · rw [hy]
        constructor
        · intro h
          exact absurd h (by decide)
        · intro hp
          exact absurd hp hAS
      · rw [hact]
        exact ⟨fun _ => hPV, fun _ => by simp [lodesDownloads]⟩
    · have hy : lodesYear state = 2017 := by
        unfold lodesYear
        rw [if_neg hAS, if_neg hPV]
      refine ⟨fun _ _ _ _ => hy, ?_, ?_, fun hp => absurd hp hPV⟩
      · rw [hy]
        exact ⟨fun h => absurd h (by decide), fun hp => absurd hp hAS⟩
      · constructor
        · intro hd
          exfalso
          unfold lodesActions at hd
          rw [hy] at hd
          simp [lodesDownloads] at hd
        · intro hp
          exact absurd hp hPV

/-- C6 witness: CA gets 2017, AK and SD get 2016, PR and VI get no LODES
downloads and only the log message. -/
theorem c6_witness :
    lodesYear "CA" = 2017 ∧ lodesYear "AK" = 2016 ∧ lodesYear "SD" = 2016 ∧
    lodesDownloads (lodesActions "out" "PR") = [] ∧
    lodesActions "out" "VI" = [LodesAction.logNoData "VI"] := by
  refine ⟨(c6_vintage_selection "out" "CA").1 (by decide) (by decide)
      (by decide) (by decide),
    ((c6_vintage_selection "out" "AK").2.1).mpr (Or.inl rfl),
    ((c6_vintage_selection "out" "SD").2.1).mpr (Or.inr rfl),
    ((c6_vintage_selection "out" "PR").2.2.1).mpr (Or.inl rfl),
    ((c6_vintage_selection "out" "VI").2.2.2) (Or.inr rfl)⟩

end Census

namespace Census

theorem nextVals_eq_range (n : Nat) : ∀ ct, nextVals n ct = List.range' (ct + 1) n := by
  induction n with
  | zero => intro ct; rfl
  | succ n ih =>
    intro ct
    rw [List.range'_succ]
    show (ct + 1) :: nextVals n (ct + 1) = _
    rw [ih (ct + 1)]

theorem transformRow_spec (row : List (String × String)) : ∀ ct,
    (transformRow ct row).1 = ct + countC row ∧
    rowSubbed (transformRow ct row).2 = List.range' (ct + 1) (countC row) := by
  induction row with
  | nil => intro ct; exact ⟨rfl, rfl⟩
  | cons p rest ih =>
    intro ct
    obtain ⟨k, v⟩ := p
    by_cases hk : k.startsWith "C"
    · have hc : countC ((k, v) :: rest) = countC rest + 1 := by
        unfold countC
        rw [List.filter_cons]
        simp [hk]
      unfold transformRow
      rw [if_pos hk]
      have h1 := (ih (ct + 1)).1
      have h2 := (ih (ct + 1)).2
      constructor
      · show (transformRow (ct + 1) rest).1 = ct + countC ((k, v) :: rest)
        rw [h1, hc]
        omega
      · show rowSubbed ((k, CellVal.subbed (ct + 1)) :: (transformRow (ct + 1) rest).2) =
          List.range' (ct + 1) (countC ((k, v) :: rest))
        unfold rowSubbed
        rw [List.filterMap_cons]
        simp only
        rw [hc, List.range'_succ]
        show (ct + 1) :: rowSubbed (transformRow (ct + 1) rest).2 = _
        rw [h2]
    · have hc : countC ((k, v) :: rest) = countC rest := by
        unfold countC
        rw [List.filter_cons]
        simp [hk]
      unfold transformRow
      rw [if_neg hk]
      have h1 := (ih ct).1
      have h2 := (ih ct).2
      constructor
      · show (transformRow ct rest).1 = ct + countC ((k, v) :: rest)
        rw [h1, hc]
      · show rowSubbed ((k, CellVal.orig v) :: (transformRow ct rest).2) =
          List.range' (ct + 1) (countC ((k, v) :: rest))
        unfold rowSubbed
        rw [List.filterMap_cons]
        simp only
        rw [hc]
        show rowSubbed (transformRow ct rest).2 = _
        rw [h2]

theorem transformRows_spec (rows : List (List (String × String))) : ∀ ct,
    (transformRows ct rows).1 = ct + countCAll rows ∧
    allSubbed (transformRows ct rows).2 =
      List.range' (ct + 1) (countCAll rows) := by
  induction rows with
  | nil => intro ct; exact ⟨rfl, rfl⟩
  | cons row rest ih =>
    intro ct
    have hr := transformRow_spec row ct
    have hc : countCAll (row :: rest) = countC row + countCAll rest := by
      unfold countCAll
      simp
    constructor
    · show (transformRows (transformRow ct row).1 rest).1 = _
      rw [hr.1, (ih (ct + countC row)).1, hc]
      omega
    · show allSubbed ((transformRow ct row).2 :: (transformRows (transformRow ct row).1 rest).2) = _
      unfold allSubbed
      rw [List.flatMap_cons]
      show rowSubbed (transformRow ct row).2 ++
          allSubbed (transformRows (transformRow ct row).1 rest).2 = _
      rw [hr.2, hr.1, (ih (ct + countC row)).2, hc]
      have := List.range'_append (ct + 1) (countC row) (countCAll rest) 1
      simp only [Nat.mul_one, Nat.one_mul] at this
      rw [show ct + countC row + 1 = ct + 1 + countC row by omega]
      rw [this]
      rw [Nat.add_comm (countCAll rest) (countC row)]

theorem chain_succ_range (n : Nat) : ∀ s,
    List.Chain' (fun a b => b = a + 1) (List.range' s n) := by
  induction n with
  | zero => intro s; exact List.chain'_nil
  | succ n ih =>
    intro s
    rw [List.range'_succ]
    rw [List.chain'_cons']
    refine ⟨?_, ih (s + 1)⟩
    intro y hy
    cases n with
    | zero => simp at hy
    | succ m =>
      rw [List.range'_succ] at hy
      simp at hy
      omega

/-- C8: n successive calls of the substitute-value generator starting from
the initial counter 0 return exactly 1, 2, up to n — a strictly increasing
sequence where each call returns one more than the previous, starting at 1 —
and consequently the substituted values across all row transformations of a
run are 1 up to the total number of substituted cells, with no duplicate. -/
theorem c8_generator_increasing (n : Nat)
    (rows : List (List (String × String))) :
    nextVals n 0 = List.range' 1 n ∧
    (nextVals n 0).Nodup ∧
    List.Chain' (fun a b => b = a + 1) (nextVals n 0) ∧
    allSubbed (transformRows 0 rows).2 = List.range' 1 (countCAll rows) ∧
    (allSubbed (transformRows 0 rows).2).Nodup := by
  have h1 := nextVals_eq_range n 0
  have h2 := (transformRows_spec rows 0).2
  refine ⟨h1, ?_, ?_, h2, ?_⟩
  · rw [h1]
    exact List.nodup_range' 1 n
  · rw [h1]
    exact chain_succ_range n 1
  · rw [h2]
    exact List.nodup_range' 1 (countCAll rows)

end Census

namespace Speeds

theorem dictGet_replace (k v : String) : ∀ d : List (String × String),
    d.any (fun p => p.1 = k) = true →
    dictGet (d.map fun p => if p.1 = k then (k, v) else p) k = some v := by
  intro d
  induction d with
  | nil => intro h; simp at h
  | cons p rest ih =>
    intro h
    by_cases hp : p.1 = k
    · show dictGet ((if p.1 = k then (k, v) else p) :: _) k = some v
      rw [if_pos hp]
      unfold dictGet
      simp
    · show dictGet ((if p.1 = k then (k, v) else p) :: _) k = some v
      rw [if_neg hp]
      unfold dictGet
      rw [if_neg hp]
      apply ih
      rw [List.any_cons] at h
      simpa [hp] using h

theorem dictGet_replace_ne (k v k' : String) (hne : k' ≠ k) :
    ∀ d : List (String × String),
    dictGet (d.map fun p => if p.1 = k then (k, v) else p) k' = dictGet d k' := by
  intro d
  induction d with
  | nil => rfl
  | cons p rest ih =>
    by_cases hp : p.1 = k
    · show dictGet ((if p.1 = k then (k, v) else p) :: _) k' = _
      rw [if_pos hp]
      unfold dictGet
      rw [if_neg (fun he => hne he.symm),
        if_neg (fun he => hne (he.symm.trans hp))]
      exact ih
    · show dictGet ((if p.1 = k then (k, v) else p) :: _) k' = _
      rw [if_neg hp]
      unfold dictGet
      by_cases hk : p.1 = k'
      · rw [if_pos hk, if_pos hk]
      · rw [if_neg hk, if_neg hk]
        exact ih

theorem dictGet_append_self (k v : String) : ∀ d : List (String × String),
    d.any (fun p => p.1 = k) = false →
    dictGet (d ++ [(k, v)]) k = some v := by
  intro d
  induction d with
  | nil => intro _; simp [dictGet]
  | cons p rest ih =>
    intro h
    rw [List.any_cons] at h
    have hp : ¬(p.1 = k) := by
      intro he
      simp [he] at h
    show dictGet (p :: (rest ++ [(k, v)])) k = some v
    unfold dictGet
    rw [if_neg hp]
    apply ih
    simpa [hp] using h

theorem dictGet_append_ne (k v k' : String) (hne : k' ≠ k) :
    ∀ d : List (String × String),
    dictGet (d ++ [(k, v)]) k' = dictGet d k' := by
  intro d
  induction d with
  | nil =>
    show dictGet [(k, v)] k' = none
    unfold dictGet
    rw [if_neg (fun he => hne he.symm)]
    rfl
  | cons p rest ih =>
    show dictGet (p :: (rest ++ [(k, v)])) k' = _
    unfold dictGet
    by_cases hk : p.1 = k'
    · rw [if_pos hk, if_pos hk]
    · rw [if_neg hk, if_neg hk]
      exact ih

theorem dictGet_dictInsert (d : List (String × String)) (k0 v k : String) :
    dictGet (dictInsert d k0 v) k = if k0 = k then some v else dictGet d k := by
  unfold dictInsert
  by_cases hany : d.any (fun p => p.1 = k0)
  · rw [if_pos hany]
    by_cases hk : k0 = k
    · subst hk
      rw [if_pos rfl]
      exact dictGet_replace k0 v d hany
    · rw [if_neg hk]
      exact dictGet_replace_ne k0 v k (fun he => hk he.symm) d
  · rw [if_neg hany]
    by_cases hk : k0 = k
    · subst hk
      rw [if_pos rfl]
      exact dictGet_append_self k0 v d (Bool.eq_false_iff.mpr hany)
    · rw [if_neg hk]
      exact dictGet_append_ne k0 v k (fun he => hk he.symm) d

theorem dictGet_convertStep (d : List (String × String)) (row : SpeedRow)
    (k : String) :
    dictGet (convertStep d row) k =
      if maxspeedMatch row.numericEquivalent = true ∧
          Census.lowerStr row.value = k
      then some row.numericEquivalent else dictGet d k := by
  unfold convertStep
  by_cases hm : maxspeedMatch row.numericEquivalent
  · rw [if_pos hm, dictGet_dictInsert]
    by_cases hk : Census.lowerStr row.value = k
    · rw [if_pos hk, if_pos ⟨hm, hk⟩]
    · rw [if_neg hk, if_neg (fun h => hk h.2)]
  · rw [if_neg hm, if_neg (fun h => hm h.1)]

theorem convert_sound (k v : String) : ∀ (rows : List SpeedRow)
    (d : List (String × String)),
    dictGet (rows.foldl convertStep d) k = some v →
    (∃ r ∈ rows, maxspeedMatch r.numericEquivalent = true ∧
      Census.lowerStr r.value = k ∧ r.numericEquivalent = v) ∨
    dictGet d k = some v := by
  intro rows
  induction rows with
  | nil => intro d h; exact Or.inr h
  | cons r rest ih =>
    intro d h
    rw [List.foldl_cons] at h
    rcases ih (convertStep d r) h with hin | hd
    · obtain ⟨q, hq, hp⟩ := hin
      exact Or.inl ⟨q, List.mem_cons_of_mem _ hq, hp⟩
    · rw [dictGet_convertStep] at hd
      by_cases hc : maxspeedMatch r.numericEquivalent = true ∧
          Census.lowerStr r.value = k
      · rw [if_pos hc] at hd
        exact Or.inl ⟨r, List.mem_cons_self _ _, hc.1, hc.2,
          Option.some.inj hd⟩
      · rw [if_neg hc] at hd
        exact Or.inr hd

theorem convert_mono (k : String) : ∀ (rows : List SpeedRow)
    (d : List (String × String)),
    (dictGet d k).isSome = true →
    (dictGet (rows.foldl convertStep d) k).isSome = true := by
  intro rows
  induction rows with
  | nil => intro d h; exact h
  | cons r rest ih =>
    intro d h
    rw [List.foldl_cons]
    apply ih
    rw [dictGet_convertStep]
    by_cases hc : maxspeedMatch r.numericEquivalent = true ∧
        Census.lowerStr r.value = k
    · rw [if_pos hc]
      rfl
    · rw [if_neg hc]
      exact h

theorem convert_complete : ∀ (rows : List SpeedRow)
    (d : List (String × String)) (r : SpeedRow), r ∈ rows →
    maxspeedMatch r.numericEquivalent = true →
    (dictGet (rows.foldl convertStep d) (Census.lowerStr r.value)).isSome = true := by
  intro rows
  induction rows with
  | nil => intro d r hr; simp at hr
  | cons r0 rest ih =>
    intro d r hr hm
    rw [List.foldl_cons]
    rcases List.mem_cons.mp hr with he | hr'
    · subst he
      apply convert_mono _ rest
      rw [dictGet_convertStep, if_pos ⟨hm, rfl⟩]
      rfl
    · exact ih (convertStep d r0) r hr' hm

theorem convert_overwrite (rows : List SpeedRow) (r : SpeedRow) (k : String) :
    dictGet (convertSpeeds (rows ++ [r])) k =
      if maxspeedMatch r.numericEquivalent = true ∧
          Census.lowerStr r.value = k
      then some r.numericEquivalent else dictGet (convertSpeeds rows) k := by
  unfold convertSpeeds
  rw [List.foldl_append, List.foldl_cons, List.foldl_nil]
  exact dictGet_convertStep _ r k

/-- C10: the converted mapping answers a key with some value exactly through
the input rows whose numeric-equivalent field matches the maxspeed regex:
every answer comes from such a row via its lowercased value field and carries
the unmodified numeric-equivalent string, every matching row makes its
lowercased key present, and appending a row overwrites the previous entry at
its lowercased key exactly when the row matches the regex. -/
theorem c10_speed_table (rows : List SpeedRow) (r : SpeedRow) (k v : String) :
    (dictGet (convertSpeeds rows) k = some v →
      ∃ q ∈ rows, maxspeedMatch q.numericEquivalent = true ∧
        Census.lowerStr q.value = k ∧ q.numericEquivalent = v) ∧
    (r ∈ rows → maxspeedMatch r.numericEquivalent = true →
      (dictGet (convertSpeeds rows) (Census.lowerStr r.value)).isSome = true) ∧
    (dictGet (convertSpeeds (rows ++ [r])) k =
      if maxspeedMatch r.numericEquivalent = true ∧
          Census.lowerStr r.value = k
      then some r.numericEquivalent else dictGet (convertSpeeds rows) k) := by
  refine ⟨?_, ?_, convert_overwrite rows r k⟩
  · intro h
    rcases convert_sound k v rows [] h with hin | hd
    · exact hin
    · simp [dictGet] at hd
  · intro hr hm
    exact convert_complete rows [] r hr hm

/-- C10 witness: appending the row WALK mapped to 6.5 (which matches the
regex) overwrites the entry the earlier row Walk mapped to 5.0 had left under
the shared lowercased key walk. -/
theorem c10_witness :
    dictGet (convertSpeeds ([⟨"Walk", "5.0"⟩, ⟨"Fast", "zz"⟩] ++
      [⟨"WALK", "6.5"⟩])) "walk" = some "6.5" := by
  have h := (c10_speed_table [⟨"Walk", "5.0"⟩, ⟨"Fast", "zz"⟩]
    ⟨"WALK", "6.5"⟩ "walk" "6.5").2.2
  rw [h, if_pos ⟨by decide, by decide⟩]

end Speeds
